import Mathlib

/-!
Verification of the Bikeshare data-management pipeline.

The development shallowly embeds the data-preparation code of the
repository: the column resolver and datetime coercion of utils.py, the
cleaning pipeline (geo-completeness, temporal-consistency and
duration-bounds rules with its cleaning log) of the quality page, the
prepared-table loader of utils.py, and the hour bucketing of the
analysis page.  Timestamps are modelled as integer epoch seconds; a raw
timestamp cell is either missing, malformed (unparseable) or a valid
instant, matching the behaviour of coercing parses that turn failures
into a missing marker.  Durations are rational numbers of minutes.
-/

/-- Content of one raw timestamp cell: absent, unparseable, or an
instant given in epoch seconds. -/
inductive TimeCell where
  | missing : TimeCell
  | malformed : TimeCell
  | valid : Int → TimeCell
deriving DecidableEq

/-- Result of coercing one cell with errors turned into the missing
marker: a valid instant parses, everything else becomes none (NaT). -/
def parseCell : TimeCell → Option Int
  | .valid t => some t
  | .missing => none
  | .malformed => none

/-- Embeds to_datetime_safe: elementwise coercing conversion of a
column of timestamp cells. -/
def to_datetime_safe (s : List TimeCell) : List (Option Int) :=
  s.map parseCell

/-- One raw trip record, holding the fields the cleaning rules touch.
Optional values model missing cells (NaN). -/
structure Row where
  started_at : TimeCell
  ended_at : TimeCell
  start_station_name : Option String
  end_station_name : Option String
  end_lat : Option Rat
  end_lng : Option Rat
deriving DecidableEq

/-- A raw table: the list of column names (governing which optional
cleaning rules activate and what the resolver sees) and the rows. -/
structure RawTable where
  columns : List String
  rows : List Row
deriving DecidableEq

/-- Characterwise lowercase of a column name (the case folding of the
resolver; column names are plain ASCII). -/
def lower_str (s : String) : String :=
  String.mk (s.data.map Char.toLower)

/-- Lookup in the lowercased-name dictionary built from the column
list; as in a Python dict comprehension, a later column overrides an
earlier one with the same lowercase form. -/
def lookup_lower (cols : List String) (key : String) : Option String :=
  match cols with
  | [] => none
  | c :: rest =>
    match lookup_lower rest key with
    | some r => some r
    | none => if lower_str c == key then some c else none

/-- Embeds find_col: return the dictionary entry of the first
candidate whose lowercase form names a column, or none. -/
def find_col (cols : List String) (cands : List String) : Option String :=
  match cands with
  | [] => none
  | cand :: rest =>
    match lookup_lower cols (lower_str cand) with
    | some c => some c
    | none => find_col cols rest

namespace Utils

/-- Role map produced by infer_cols of utils.py. -/
structure Roles where
  start_dt : Option String
  end_dt : Option String
  user : Option String
  bike : Option String
deriving DecidableEq

/-- Embeds infer_cols of utils.py with its four alias lists. -/
def infer_cols (cols : List String) : Roles :=
  { start_dt := find_col cols ["started_at", "start_time", "starttime", "start_datetime"],
    end_dt := find_col cols ["ended_at", "end_time", "stoptime", "end_datetime"],
    user := find_col cols ["member_casual", "usertype", "user_type", "customer_type"],
    bike := find_col cols ["rideable_type", "bike_type", "vehicle_type"] }

end Utils

namespace Cleaning

/-- Role map produced by infer_cols of the quality page. -/
structure Roles where
  started_at : Option String
  ended_at : Option String
deriving DecidableEq

/-- Embeds infer_cols of the quality page (start and end roles only). -/
def infer_cols (cols : List String) : Roles :=
  { started_at := find_col cols ["started_at", "start_time", "starttime", "start_datetime"],
    ended_at := find_col cols ["ended_at", "end_time", "stoptime", "end_datetime"] }

/-- Both time roles resolved (the truthiness test of the source on the
two resolved column names). -/
def resolved (t : RawTable) : Bool :=
  (infer_cols t.columns).started_at.isSome && (infer_cols t.columns).ended_at.isSome

/-- Station-name imputation: when the column exists, missing station
names become the sentinel string. -/
def impute (cols : List String) (r : Row) : Row :=
  { r with
    start_station_name :=
      if "start_station_name" ∈ cols then some (r.start_station_name.getD "Missing")
      else r.start_station_name,
    end_station_name :=
      if "end_station_name" ∈ cols then some (r.end_station_name.getD "Missing")
      else r.end_station_name }

/-- Rows after station-name imputation. -/
def imputedRows (t : RawTable) : List Row :=
  t.rows.map (impute t.columns)

/-- The geo rule is active only when both coordinate columns exist. -/
def geo_active (cols : List String) : Bool :=
  decide ("end_lat" ∈ cols) && decide ("end_lng" ∈ cols)

/-- A row survives the geo rule when both end coordinates are present. -/
def geo_ok (r : Row) : Bool :=
  r.end_lat.isSome && r.end_lng.isSome

/-- Rows after the geo-completeness filter. -/
def geoRows (t : RawTable) : List Row :=
  if geo_active t.columns then (imputedRows t).filter geo_ok else imputedRows t

/-- Temporal incoherence mask: both timestamps parsed and the end is
strictly earlier than the start. -/
def incohMask (r : Row) : Bool :=
  match parseCell r.started_at, parseCell r.ended_at with
  | some s, some e => decide (e < s)
  | _, _ => false

/-- Rows after the temporal-consistency filter; the rule only runs when
both time roles resolved. -/
def incohRows (t : RawTable) : List Row :=
  if resolved t then (geoRows t).filter (fun r => ! incohMask r) else geoRows t

/-- A surviving row together with its derived duration in minutes. -/
structure CleanRow where
  row : Row
  trip_duration_min : Option Rat
deriving DecidableEq

/-- Duration in minutes computed from the parsed timestamps; missing
when either timestamp did not parse. -/
def mkDur (r : Row) : Option Rat :=
  match parseCell r.started_at, parseCell r.ended_at with
  | some s, some e => some (((e - s : Int) : Rat) / 60)
  | _, _ => none

/-- The table right before the duration-bounds filter: every surviving
row with its duration column; the column is all-missing when the time
roles are unresolved. -/
def preFilter (t : RawTable) : List CleanRow :=
  (incohRows t).map (fun r => ⟨r, if resolved t then mkDur r else none⟩)

/-- Diagnostic predicate: duration present and at most zero. -/
def dur_le_0_p (c : CleanRow) : Bool :=
  match c.trip_duration_min with
  | some d => decide (d ≤ 0)
  | none => false

/-- Diagnostic predicate: duration present, positive and under one
minute. -/
def dur_lt_1_p (c : CleanRow) : Bool :=
  match c.trip_duration_min with
  | some d => decide (0 < d ∧ d < 1)
  | none => false

/-- Diagnostic predicate: duration present and over twenty-four hours. -/
def dur_gt_24h_p (c : CleanRow) : Bool :=
  match c.trip_duration_min with
  | some d => decide (d > 1440)
  | none => false

/-- Duration-bounds predicate: duration present and within one minute
to twenty-four hours; a missing duration fails. -/
def dur_ok (c : CleanRow) : Bool :=
  match c.trip_duration_min with
  | some d => decide (1 ≤ d ∧ d ≤ 1440)
  | none => false

/-- Rows of the cleaned table. -/
def cleanRows (t : RawTable) : List CleanRow :=
  (preFilter t).filter dur_ok

/-- The cleaning log record, with the counters of the source. -/
structure CleaningLog where
  raw_n : Nat
  clean_n : Nat
  dropped_total : Nat
  dropped_geo : Nat
  incoh_time : Nat
  dur_le_0 : Nat
  dur_lt_1 : Nat
  dur_gt_24h : Nat
  dropped_dur : Nat
  start_col : Option String
  end_col : Option String
deriving DecidableEq

/-- The cleaning log of one pipeline run. -/
def cleaning_log (t : RawTable) : CleaningLog :=
  { raw_n := t.rows.length,
    clean_n := (cleanRows t).length,
    dropped_total := t.rows.length - (cleanRows t).length,
    dropped_geo := (imputedRows t).length - (geoRows t).length,
    incoh_time := if resolved t then ((geoRows t).filter incohMask).length else 0,
    dur_le_0 := ((preFilter t).filter dur_le_0_p).length,
    dur_lt_1 := ((preFilter t).filter dur_lt_1_p).length,
    dur_gt_24h := ((preFilter t).filter dur_gt_24h_p).length,
    dropped_dur := (preFilter t).length - (cleanRows t).length,
    start_col := (infer_cols t.columns).started_at,
    end_col := (infer_cols t.columns).ended_at }

/-- Result of one pipeline run: the untouched raw table, the cleaned
table and the log. -/
structure PrepResult where
  raw : RawTable
  clean : List CleanRow
  log : CleaningLog
deriving DecidableEq

/-- Embeds prepare_data of the quality page. -/
def prepare_data (t : RawTable) : PrepResult :=
  ⟨t, cleanRows t, cleaning_log t⟩

end Cleaning

namespace Utils

/-- Weekday names, Monday first, matching the day-name derivation. -/
def day_names : List String :=
  ["Monday", "Tuesday", "Wednesday", "Thursday", "Friday", "Saturday", "Sunday"]

/-- Weekday name of an epoch-second instant (the epoch origin was a
Thursday, index three in a Monday-first week). -/
def day_name (s : Int) : String :=
  day_names.getD (((s / 86400) % 7 + 3) % 7).toNat "Monday"

/-- Hour component, zero to twenty-three, of an epoch-second instant. -/
def hour_of (s : Int) : Int :=
  (s / 3600) % 24

/-- Both timestamps of the row parse successfully (the rows kept by the
dropna step of load_prepared). -/
def both_parse (r : Row) : Bool :=
  (parseCell r.started_at).isSome && (parseCell r.ended_at).isSome

/-- A prepared row: the raw record with the three derived columns. -/
structure PrepRow where
  row : Row
  trip_duration_min : Option Rat
  day_of_week : Option String
  start_hour : Option Int
deriving DecidableEq

/-- Derivation of the three notebook variables for one row; each is
missing when the timestamp it depends on did not parse. -/
def augment (r : Row) : PrepRow :=
  { row := r,
    trip_duration_min :=
      match parseCell r.started_at, parseCell r.ended_at with
      | some s, some e => some (((e - s : Int) : Rat) / 60)
      | _, _ => none,
    day_of_week := (parseCell r.started_at).map day_name,
    start_hour := (parseCell r.started_at).map hour_of }

/-- Both time roles resolved by infer_cols of utils.py. -/
def resolved_roles (t : RawTable) : Bool :=
  (infer_cols t.columns).start_dt.isSome && (infer_cols t.columns).end_dt.isSome

/-- Result of load_prepared: either the raw table unchanged (time roles
missing) or a prepared table. -/
inductive LoadResult where
  | degraded : RawTable → LoadResult
  | prepared : List PrepRow → LoadResult
deriving DecidableEq

/-- Embeds load_prepared of utils.py: convert the time columns, drop
rows where either is missing, then append the derived variables. -/
def load_prepared (t : RawTable) : LoadResult :=
  if resolved_roles t then
    .prepared ((t.rows.filter both_parse).map augment)
  else
    .degraded t

end Utils

/-- Bin edges of the hour bucketing of the analysis page. -/
def bins : List Nat := [0, 6, 10, 14, 18, 22, 24]

/-- Bucket labels of the hour bucketing of the analysis page. -/
def slot_labels : List String :=
  ["00–05 (Nuit)", "06–09 (Matin)", "10–13 (Midi)",
   "14–17 (Après-midi)", "18–21 (Soir)", "22–23 (Nuit tardive)"]

/-- Left-closed right-open interval cut: the label of the first bin
containing the value, none when the value lies outside every bin. -/
def cutRF : List Nat → List String → Nat → Option String
  | b1 :: b2 :: bs, l :: ls, x =>
    if b1 ≤ x ∧ x < b2 then some l else cutRF (b2 :: bs) ls x
  | _, _, _ => none

/-- Embeds the time-slot assignment of the analysis page. -/
def time_slot (h : Nat) : Option String :=
  cutRF bins slot_labels h

/-- Sample raw row with a five-minute trip, used to exercise the
pipeline on concrete data. -/
def wrow1 : Row :=
  { started_at := .valid 0, ended_at := .valid 300,
    start_station_name := none, end_station_name := none,
    end_lat := none, end_lng := none }

/-- Sample raw table containing the five-minute trip. -/
def w1t : RawTable := { columns := ["started_at", "ended_at"], rows := [wrow1] }

/-- Sample raw row whose end precedes its start by ten minutes. -/
def wrow_neg : Row :=
  { started_at := .valid 600, ended_at := .valid 0,
    start_station_name := none, end_station_name := none,
    end_lat := none, end_lng := none }

/-- Sample raw row with a malformed start timestamp. -/
def wrow_bad : Row :=
  { started_at := .malformed, ended_at := .valid 0,
    start_station_name := none, end_station_name := none,
    end_lat := none, end_lng := none }

/-- Sample raw table with an incoherent and a malformed row. -/
def w3t : RawTable :=
  { columns := ["started_at", "ended_at"], rows := [wrow1, wrow_neg, wrow_bad] }

/-- Sample raw table with no recognizable time columns. -/
def w4t : RawTable := { columns := ["foo"], rows := [wrow1] }

/-- Splitting a list by a predicate preserves its length. -/
theorem length_filter_split {α : Type} (p : α → Bool) (l : List α) :
    (l.filter p).length + (l.filter (fun a => ! p a)).length = l.length := by
  induction l with
  | nil => rfl
  | cons a l ih =>
    cases h : p a <;> simp [List.filter_cons, h] <;> omega

/-- C7: the datetime normalizer returns a column of the same row count
and ordering, in which every parseable value becomes its instant and
every missing or malformed value becomes the missing marker; being a
total function, it never raises. -/
theorem c7_to_datetime_safe_total (s : List TimeCell) :
    (to_datetime_safe s).length = s.length
  ∧ (∀ i : Nat, (to_datetime_safe s)[i]? = (s[i]?).map parseCell)
  ∧ (∀ (c : TimeCell) (t : Int), parseCell c = some t ↔ c = TimeCell.valid t)
  ∧ parseCell TimeCell.missing = none ∧ parseCell TimeCell.malformed = none := by
  refine ⟨by simp [to_datetime_safe], fun i => by simp [to_datetime_safe], ?_, rfl, rfl⟩
  intro c t
  cases c <;> simp [parseCell]

/-- C5: the cleaning pipeline is a deterministic pure function of the
raw table alone, so two runs on identical raw input yield identical
cleaned tables and identical logs. -/
theorem c5_pipeline_deterministic (t₁ t₂ : RawTable) (h : t₁ = t₂) :
    (Cleaning.prepare_data t₁).clean = (Cleaning.prepare_data t₂).clean
  ∧ (Cleaning.prepare_data t₁).log = (Cleaning.prepare_data t₂).log := by
  subst h
  exact ⟨rfl, rfl⟩

/-- Witness for C5 at the concrete sample table. -/
theorem c5_pipeline_deterministic_witness :
    (Cleaning.prepare_data w1t).clean = (Cleaning.prepare_data w1t).clean
  ∧ (Cleaning.prepare_data w1t).log = (Cleaning.prepare_data w1t).log :=
  c5_pipeline_deterministic w1t w1t rfl

/-- C4: with neither time role recognized the pipeline still completes
(it is a total function), the duration column before the bounds filter
is all-missing, the bounds filter therefore drops every row so the
cleaned table is empty with clean count zero, and the log records the
null resolved role names. -/
theorem c4_degraded_mode (t : RawTable)
    (h1 : (Cleaning.infer_cols t.columns).started_at = none)
    (h2 : (Cleaning.infer_cols t.columns).ended_at = none) :
    (∀ c ∈ Cleaning.preFilter t, c.trip_duration_min = none)
  ∧ Cleaning.cleanRows t = []
  ∧ (Cleaning.cleaning_log t).clean_n = 0
  ∧ (Cleaning.cleaning_log t).start_col = none
  ∧ (Cleaning.cleaning_log t).end_col = none := by
  have hres : Cleaning.resolved t = false := by
    simp [Cleaning.resolved, h1]
  have hall : ∀ c ∈ Cleaning.preFilter t, c.trip_duration_min = none := by
    intro c hc
    simp only [Cleaning.preFilter, List.mem_map] at hc
    obtain ⟨r, -, rfl⟩ := hc
    simp [hres]
  have hnil : Cleaning.cleanRows t = [] := by
    rw [Cleaning.cleanRows, List.filter_eq_nil_iff]
    intro c hc
    simp [Cleaning.dur_ok, hall c hc]
  refine ⟨hall, hnil, ?_, ?_, ?_⟩
  · simp [Cleaning.cleaning_log, hnil]
  · simpa [Cleaning.cleaning_log] using h1
  · simpa [Cleaning.cleaning_log] using h2

/-- Witness for C4 at a concrete table with no recognizable time
columns. -/
theorem c4_degraded_mode_witness :
    (Cleaning.infer_cols w4t.columns).started_at = none
  ∧ (Cleaning.infer_cols w4t.columns).ended_at = none
  ∧ ((∀ c ∈ Cleaning.preFilter w4t, c.trip_duration_min = none)
      ∧ Cleaning.cleanRows w4t = []
      ∧ (Cleaning.cleaning_log w4t).clean_n = 0
      ∧ (Cleaning.cleaning_log w4t).start_col = none
      ∧ (Cleaning.cleaning_log w4t).end_col = none) :=
  ⟨by decide, by decide, c4_degraded_mode w4t (by decide) (by decide)⟩

/-- C2: for every raw table, the log satisfies raw count minus total
dropped equals clean count, and the total dropped is exactly the sum of
the geo, temporal and duration drops, the rules being applied
sequentially on shrinking subsets. -/
theorem c2_log_arithmetic (t : RawTable) :
    (Cleaning.cleaning_log t).raw_n - (Cleaning.cleaning_log t).dropped_total
      = (Cleaning.cleaning_log t).clean_n
  ∧ (Cleaning.cleaning_log t).dropped_total
      = (Cleaning.cleaning_log t).dropped_geo + (Cleaning.cleaning_log t).incoh_time
        + (Cleaning.cleaning_log t).dropped_dur := by
  have h1 : (Cleaning.imputedRows t).length = t.rows.length := by
    simp [Cleaning.imputedRows]
  have h2 : (Cleaning.geoRows t).length ≤ (Cleaning.imputedRows t).length := by
    rw [Cleaning.geoRows]
    split
    · exact List.length_filter_le _ _
    · exact Nat.le_refl _
  have h3 : (Cleaning.preFilter t).length = (Cleaning.incohRows t).length := by
    simp [Cleaning.preFilter]
  have h4 : (Cleaning.cleanRows t).length ≤ (Cleaning.preFilter t).length :=
    List.length_filter_le _ _
  by_cases hres : Cleaning.resolved t = true
  · have h5 := length_filter_split Cleaning.incohMask (Cleaning.geoRows t)
    have h6 : (Cleaning.incohRows t).length
        = ((Cleaning.geoRows t).filter (fun r => ! Cleaning.incohMask r)).length := by
      simp [Cleaning.incohRows, hres]
    simp [Cleaning.cleaning_log, hres]
    omega
  · have h6 : (Cleaning.incohRows t).length = (Cleaning.geoRows t).length := by
      simp [Cleaning.incohRows, hres]
    simp [Cleaning.cleaning_log, hres]
    omega

/-- C1: every row of the cleaned table has a present duration between
one minute and twenty-four hours, and that duration equals the end
instant minus the start instant of the same row, in minutes. -/
theorem c1_duration_invariant (t : RawTable) (cr : Cleaning.CleanRow)
    (h : cr ∈ (Cleaning.prepare_data t).clean) :
    ∃ d s e, cr.trip_duration_min = some d ∧ (1 : Rat) ≤ d ∧ d ≤ 1440
      ∧ parseCell cr.row.started_at = some s ∧ parseCell cr.row.ended_at = some e
      ∧ d = ((e - s : Int) : Rat) / 60 := by
  have hm : cr ∈ Cleaning.preFilter t ∧ Cleaning.dur_ok cr = true := by
    simpa [Cleaning.prepare_data, Cleaning.cleanRows] using List.mem_filter.mp h
  obtain ⟨hpre, hok⟩ := hm
  obtain ⟨d, hd, hbounds⟩ : ∃ d, cr.trip_duration_min = some d ∧ (1 ≤ d ∧ d ≤ 1440) := by
    rw [Cleaning.dur_ok] at hok
    rcases hdur : cr.trip_duration_min with - | d
    · rw [hdur] at hok
      simp at hok
    · rw [hdur] at hok
      exact ⟨d, rfl, by simpa using hok⟩
  obtain ⟨r, -, hrow⟩ := List.mem_map.mp (by simpa [Cleaning.preFilter] using hpre)
  have hr : cr.row = r := by rw [← hrow]
  have hdr : (if Cleaning.resolved t then Cleaning.mkDur r else none) = some d := by
    rw [← hd, ← hrow]
  have hmk : Cleaning.mkDur r = some d := by
    rcases hres : Cleaning.resolved t with - | -
    · rw [hres] at hdr
      simp at hdr
    · rw [hres] at hdr
      simpa using hdr
  rw [Cleaning.mkDur] at hmk
  rcases hs : parseCell r.started_at with - | s <;> rcases he : parseCell r.ended_at with - | e <;>
    rw [hs, he] at hmk <;> simp at hmk
  refine ⟨d, s, e, hd, hbounds.1, hbounds.2, by rw [hr, hs], by rw [hr, he], ?_⟩
  rw [← hmk]
  push_cast
  ring

/-- Witness for C1: in the sample table the five-minute trip survives
cleaning and the theorem applies to it. -/
theorem c1_duration_invariant_witness :
    Cleaning.CleanRow.mk wrow1 (some 5) ∈ (Cleaning.prepare_data w1t).clean
  ∧ ∃ d s e, (Cleaning.CleanRow.mk wrow1 (some 5)).trip_duration_min = some d
      ∧ (1 : Rat) ≤ d ∧ d ≤ 1440
      ∧ parseCell (Cleaning.CleanRow.mk wrow1 (some 5)).row.started_at = some s
      ∧ parseCell (Cleaning.CleanRow.mk wrow1 (some 5)).row.ended_at = some e
      ∧ d = ((e - s : Int) : Rat) / 60 := by
  have hmem : Cleaning.CleanRow.mk wrow1 (some 5) ∈ (Cleaning.prepare_data w1t).clean := by
    have hd : Cleaning.mkDur wrow1 = some 5 := by
      simp only [Cleaning.mkDur, wrow1, parseCell]
      norm_num
    have hr : wrow1 ∈ Cleaning.incohRows w1t := by decide
    have hres : Cleaning.resolved w1t = true := by decide
    have hpre : Cleaning.CleanRow.mk wrow1 (some 5) ∈ Cleaning.preFilter w1t := by
      rw [Cleaning.preFilter, List.mem_map]
      exact ⟨wrow1, hr, by rw [hres]; simp [hd]⟩
    have hok : Cleaning.dur_ok (Cleaning.CleanRow.mk wrow1 (some 5)) = true := by decide
    show Cleaning.CleanRow.mk wrow1 (some 5) ∈ Cleaning.cleanRows w1t
    rw [Cleaning.cleanRows, List.mem_filter]
    exact ⟨hpre, hok⟩
  exact ⟨hmem, c1_duration_invariant w1t (Cleaning.CleanRow.mk wrow1 (some 5)) hmem⟩

/-- Characterization of the incoherence mask: it holds exactly when
both timestamps parse and the end is strictly earlier than the start. -/
theorem incohMask_iff (r : Row) :
    Cleaning.incohMask r = true ↔
      ∃ s e, parseCell r.started_at = some s ∧ parseCell r.ended_at = some e ∧ e < s := by
  rcases hs : parseCell r.started_at with - | s <;>
    rcases he : parseCell r.ended_at with - | e <;>
      simp [Cleaning.incohMask, hs, he]

/-- Membership after the temporal-consistency filter, when both time
roles resolved. -/
theorem incohRows_mem (t : RawTable) (hres : Cleaning.resolved t = true) (r : Row) :
    r ∈ Cleaning.incohRows t ↔ r ∈ Cleaning.geoRows t ∧ ¬ Cleaning.incohMask r = true := by
  simp [Cleaning.incohRows, hres, List.mem_filter]

/-- C3: with both time roles resolved, the temporal-consistency filter
drops exactly the rows in which both timestamps parsed and the end is
strictly earlier than the start, records their count as the incoherence
counter, and passes every row with a failed parse through unaffected. -/
theorem c3_temporal_filter (t : RawTable) (hres : Cleaning.resolved t = true) :
    (∀ r : Row, r ∈ Cleaning.incohRows t ↔ r ∈ Cleaning.geoRows t ∧
        ¬ ∃ s e, parseCell r.started_at = some s ∧ parseCell r.ended_at = some e ∧ e < s)
  ∧ (Cleaning.cleaning_log t).incoh_time
      = ((Cleaning.geoRows t).filter Cleaning.incohMask).length
  ∧ (∀ r : Row, Cleaning.incohMask r = true ↔
      ∃ s e, parseCell r.started_at = some s ∧ parseCell r.ended_at = some e ∧ e < s)
  ∧ (∀ r : Row, r ∈ Cleaning.geoRows t →
      (parseCell r.started_at = none ∨ parseCell r.ended_at = none) →
        r ∈ Cleaning.incohRows t) := by
  refine ⟨?_, by simp [Cleaning.cleaning_log, hres], incohMask_iff, ?_⟩
  · intro r
    rw [incohRows_mem t hres r, incohMask_iff]
  · intro r hg hnone
    rw [incohRows_mem t hres r]
    refine ⟨hg, ?_⟩
    rw [incohMask_iff]
    rintro ⟨s, e, hs, he, -⟩
    rcases hnone with h' | h'
    · rw [h'] at hs
      exact Option.noConfusion hs
    · rw [h'] at he
      exact Option.noConfusion he

/-- Witness for C3 at a concrete table holding a coherent, an
incoherent and a malformed row. -/
theorem c3_temporal_filter_witness :
    Cleaning.resolved w3t = true
  ∧ ((∀ r : Row, r ∈ Cleaning.incohRows w3t ↔ r ∈ Cleaning.geoRows w3t ∧
        ¬ ∃ s e, parseCell r.started_at = some s ∧ parseCell r.ended_at = some e ∧ e < s)
    ∧ (Cleaning.cleaning_log w3t).incoh_time
        = ((Cleaning.geoRows w3t).filter Cleaning.incohMask).length
    ∧ (∀ r : Row, Cleaning.incohMask r = true ↔
        ∃ s e, parseCell r.started_at = some s ∧ parseCell r.ended_at = some e ∧ e < s)
    ∧ (∀ r : Row, r ∈ Cleaning.geoRows w3t →
        (parseCell r.started_at = none ∨ parseCell r.ended_at = none) →
          r ∈ Cleaning.incohRows w3t)) :=
  ⟨by decide, c3_temporal_filter w3t (by decide)⟩

/-- C10: since the temporal filter runs before durations are computed,
every present duration at the outlier-accounting step is non-negative;
the at-most-zero counter therefore counts exactly the zero durations,
and rows with a missing duration are counted by none of the three
diagnostic counters. -/
theorem c10_outlier_counters (t : RawTable) :
    (∀ c ∈ Cleaning.preFilter t, ∀ d : Rat, c.trip_duration_min = some d → 0 ≤ d)
  ∧ (Cleaning.cleaning_log t).dur_le_0
      = ((Cleaning.preFilter t).filter
          (fun c => decide (c.trip_duration_min = some (0 : Rat)))).length
  ∧ (∀ c : Cleaning.CleanRow, c.trip_duration_min = none →
      Cleaning.dur_le_0_p c = false ∧ Cleaning.dur_lt_1_p c = false
        ∧ Cleaning.dur_gt_24h_p c = false) := by
  have hnonneg : ∀ c ∈ Cleaning.preFilter t, ∀ d : Rat, c.trip_duration_min = some d → 0 ≤ d := by
    intro c hc d hd
    obtain ⟨r, hrmem, hrow⟩ := List.mem_map.mp (by simpa [Cleaning.preFilter] using hc)
    have hdr : (if Cleaning.resolved t then Cleaning.mkDur r else none) = some d := by
      rw [← hd, ← hrow]
    rcases hres : Cleaning.resolved t with - | -
    · rw [hres] at hdr
      simp at hdr
    · rw [hres] at hdr
      simp only [if_true] at hdr
      have hmask : Cleaning.incohMask r = false := by
        have hmem2 : r ∈ (Cleaning.geoRows t).filter (fun r => ! Cleaning.incohMask r) := by
          simpa [Cleaning.incohRows, hres] using hrmem
        simpa using (List.mem_filter.mp hmem2).2
      rw [Cleaning.mkDur] at hdr
      rcases hs : parseCell r.started_at with - | s <;>
        rcases he : parseCell r.ended_at with - | e <;>
          rw [hs, he] at hdr <;> simp at hdr
      rw [Cleaning.incohMask, hs, he] at hmask
      simp at hmask
      have hse : (s : Rat) ≤ (e : Rat) := by exact_mod_cast hmask
      rw [← hdr]
      apply div_nonneg (by linarith) (by norm_num)
  have hcongr : ∀ c ∈ Cleaning.preFilter t,
      Cleaning.dur_le_0_p c = decide (c.trip_duration_min = some (0 : Rat)) := by
    intro c hc
    rcases hd : c.trip_duration_min with - | d
    · simp [Cleaning.dur_le_0_p, hd]
    · have h0 : 0 ≤ d := hnonneg c hc d hd
      simp only [Cleaning.dur_le_0_p, hd, Option.some.injEq, decide_eq_decide]
      constructor
      · intro hle
        exact le_antisymm hle h0
      · intro heq
        rw [heq]
  refine ⟨hnonneg, ?_, ?_⟩
  · have : ((Cleaning.preFilter t).filter Cleaning.dur_le_0_p).length
        = ((Cleaning.preFilter t).filter
            (fun c => decide (c.trip_duration_min = some (0 : Rat)))).length := by
      rw [List.filter_congr hcongr]
    simpa [Cleaning.cleaning_log] using this
  · intro c h
    refine ⟨?_, ?_, ?_⟩ <;> simp [Cleaning.dur_le_0_p, Cleaning.dur_lt_1_p,
      Cleaning.dur_gt_24h_p, h]

/-- A successful dictionary lookup returns an original column name
whose lowercase form is the key. -/
theorem lookup_lower_some (cols : List String) (key c : String)
    (h : lookup_lower cols key = some c) : c ∈ cols ∧ lower_str c = key := by
  induction cols with
  | nil => simp [lookup_lower] at h
  | cons a rest ih =>
    rw [lookup_lower] at h
    rcases hr : lookup_lower rest key with - | r
    · rw [hr] at h
      rcases hb : (lower_str a == key) with - | -
      · rw [hb] at h
        simp at h
      · rw [hb] at h
        simp at h
        subst h
        exact ⟨List.mem_cons_self a rest, by simpa using hb⟩
    · rw [hr] at h
      simp only [Option.some.injEq] at h
      subst h
      obtain ⟨hm, hl⟩ := ih hr
      exact ⟨List.mem_cons_of_mem a hm, hl⟩

/-- A failed dictionary lookup means no column has the key as its
lowercase form. -/
theorem lookup_lower_none (cols : List String) (key : String) :
    lookup_lower cols key = none ↔ ∀ c ∈ cols, lower_str c ≠ key := by
  induction cols with
  | nil => simp [lookup_lower]
  | cons a rest ih =>
    constructor
    · intro h c hc
      rw [lookup_lower] at h
      rcases hr : lookup_lower rest key with - | r
      · rw [hr] at h
        rcases hb : (lower_str a == key) with - | -
        · rcases List.mem_cons.mp hc with rfl | hc'
          · simpa using hb
          · exact ih.mp hr c hc'
        · rw [hb] at h
          simp at h
      · rw [hr] at h
        simp at h
    · intro h
      rw [lookup_lower]
      have hrest : lookup_lower rest key = none :=
        ih.mpr fun c hc => h c (List.mem_cons_of_mem a hc)
      rw [hrest]
      have hb : (lower_str a == key) = false := by
        simpa using h a (List.mem_cons_self a rest)
      rw [hb]
      simp

/-- Success of the dictionary lookup coincides with some column having
the key as its lowercase form. -/
theorem lookup_lower_isSome (cols : List String) (key : String) :
    (lookup_lower cols key).isSome = cols.any (fun c => lower_str c == key) := by
  rcases hr : lookup_lower cols key with - | c
  · have := (lookup_lower_none cols key).mp hr
    simp only [Option.isSome_none]
    symm
    simp only [List.any_eq_false]
    intro c hc
    simpa using this c hc
  · obtain ⟨hm, hl⟩ := lookup_lower_some cols key c hr
    simp only [Option.isSome_some]
    symm
    rw [List.any_eq_true]
    exact ⟨c, hm, by simp [hl]⟩

/-- C6: the resolver returns, for the first candidate alias admitting a
case-insensitive exact match, the original-case name of a matching
table column, and the explicit not-found value when no alias matches;
in particular a column named STARTED_AT resolves to the start-time
role, and a table with no known alias yields not-found. -/
theorem c6_resolver :
    (∀ (cols cands : List String) (c : String), find_col cols cands = some c →
        c ∈ cols ∧ ∃ cand,
          cands.find? (fun cd => cols.any (fun col => lower_str col == lower_str cd))
            = some cand
          ∧ lower_str c = lower_str cand)
  ∧ (∀ cols cands : List String, find_col cols cands = none ↔
        ∀ cd ∈ cands, ∀ col ∈ cols, lower_str col ≠ lower_str cd)
  ∧ (Utils.infer_cols ["ride_id", "STARTED_AT", "ended_at"]).start_dt = some "STARTED_AT"
  ∧ (Utils.infer_cols ["foo", "bar", "baz"]).start_dt = none := by
  refine ⟨?_, ?_, by decide, by decide⟩
  · intro cols cands
    induction cands with
    | nil =>
      intro c h
      simp [find_col] at h
    | cons cand rest ih =>
      intro c h
      rw [find_col] at h
      rcases hl : lookup_lower cols (lower_str cand) with - | c0
      · rw [hl] at h
        obtain ⟨hc, cand', hfind, hlow⟩ := ih c h
        have hany : cols.any (fun col => lower_str col == lower_str cand) = false := by
          have hiss := lookup_lower_isSome cols (lower_str cand)
          rw [hl] at hiss
          simpa using hiss.symm
        refine ⟨hc, cand', ?_, hlow⟩
        rw [List.find?_cons_of_neg _ (by simp [hany])]
        exact hfind
      · rw [hl] at h
        simp only [Option.some.injEq] at h
        subst h
        obtain ⟨hmem, hlc⟩ := lookup_lower_some cols (lower_str cand) c0 hl
        have hany : cols.any (fun col => lower_str col == lower_str cand) = true := by
          have hiss := lookup_lower_isSome cols (lower_str cand)
          rw [hl] at hiss
          simpa using hiss.symm
        exact ⟨hmem, cand, List.find?_cons_of_pos _ (by simp [hany]), hlc⟩
  · intro cols cands
    induction cands with
    | nil => simp [find_col]
    | cons cand rest ih =>
      rw [find_col]
      rcases hl : lookup_lower cols (lower_str cand) with - | c0
      · have hnone := (lookup_lower_none cols (lower_str cand)).mp hl
        simp only [List.mem_cons]
        constructor
        · intro h cd hcd col hcol
          rcases hcd with rfl | hcd
          · exact hnone col hcol
          · exact (ih.mp h) cd hcd col hcol
        · intro h
          exact ih.mpr fun cd hcd col hcol => h cd (Or.inr hcd) col hcol
      · simp only [List.mem_cons]
        constructor
        · intro h
          exact absurd h (by simp)
        · intro h
          obtain ⟨hmem, hlc⟩ := lookup_lower_some cols (lower_str cand) c0 hl
          exact absurd hlc (h cand (Or.inl rfl) c0 hmem)

/-- C9: when both time roles resolve, the prepared loader keeps exactly
the raw rows whose two timestamps parse, appends the three derived
variables which are then present in every kept row, and applies no
temporal-consistency or duration-bounds filtering, so any duration
value, including negative, zero, sub-minute or above twenty-four
hours, is retained. -/
theorem c9_load_prepared (t : RawTable) (hres : Utils.resolved_roles t = true) :
    ∃ rs, Utils.load_prepared t = Utils.LoadResult.prepared rs
      ∧ (∀ p : Utils.PrepRow, p ∈ rs ↔
          ∃ r ∈ t.rows, Utils.both_parse r = true ∧ p = Utils.augment r)
      ∧ (∀ p ∈ rs, p.trip_duration_min.isSome = true ∧ p.day_of_week.isSome = true
          ∧ p.start_hour.isSome = true)
      ∧ (∀ r ∈ t.rows, Utils.both_parse r = true → Utils.augment r ∈ rs) := by
  refine ⟨(t.rows.filter Utils.both_parse).map Utils.augment,
    by simp [Utils.load_prepared, hres], ?_, ?_, ?_⟩
  · intro p
    constructor
    · intro hp
      obtain ⟨r, hr, hpr⟩ := List.mem_map.mp hp
      obtain ⟨hrt, hb⟩ := List.mem_filter.mp hr
      exact ⟨r, hrt, hb, hpr.symm⟩
    · rintro ⟨r, hrt, hb, rfl⟩
      exact List.mem_map.mpr ⟨r, List.mem_filter.mpr ⟨hrt, hb⟩, rfl⟩
  · intro p hp
    obtain ⟨r, hr, rfl⟩ := List.mem_map.mp hp
    have hb := (List.mem_filter.mp hr).2
    rw [Utils.both_parse] at hb
    obtain ⟨h1, h2⟩ := by simpa using hb
    obtain ⟨s, hs⟩ := Option.isSome_iff_exists.mp h1
    obtain ⟨e, he⟩ := Option.isSome_iff_exists.mp h2
    refine ⟨?_, ?_, ?_⟩ <;> simp [Utils.augment, hs, he]
  · intro r hrt hb
    exact List.mem_map.mpr ⟨r, List.mem_filter.mpr ⟨hrt, hb⟩, rfl⟩

/-- Witness for C9 at a concrete table where a row with a negative
duration is retained and a malformed row is dropped. -/
theorem c9_load_prepared_witness :
    Utils.resolved_roles w3t = true
  ∧ (∃ rs, Utils.load_prepared w3t = Utils.LoadResult.prepared rs
      ∧ (∀ p : Utils.PrepRow, p ∈ rs ↔
          ∃ r ∈ w3t.rows, Utils.both_parse r = true ∧ p = Utils.augment r)
      ∧ (∀ p ∈ rs, p.trip_duration_min.isSome = true ∧ p.day_of_week.isSome = true
          ∧ p.start_hour.isSome = true)
      ∧ (∀ r ∈ w3t.rows, Utils.both_parse r = true → Utils.augment r ∈ rs)) :=
  ⟨by decide, c9_load_prepared w3t (by decide)⟩

/-- C8: the hour bucketing assigns every hour from zero to twenty-three
to exactly one of the six fixed half-open buckets, characterized below
by their bounds; in particular hour six falls in the morning bucket,
hour twenty-one in the evening bucket and hour twenty-three in the
late-night bucket. -/
theorem c8_time_slot_buckets :
    (∀ h : Nat, h ≤ 23 → ∃ l, time_slot h = some l ∧ l ∈ slot_labels)
  ∧ (∀ h : Nat, time_slot h = some "00–05 (Nuit)" ↔ h < 6)
  ∧ (∀ h : Nat, time_slot h = some "06–09 (Matin)" ↔ 6 ≤ h ∧ h < 10)
  ∧ (∀ h : Nat, time_slot h = some "10–13 (Midi)" ↔ 10 ≤ h ∧ h < 14)
  ∧ (∀ h : Nat, time_slot h = some "14–17 (Après-midi)" ↔ 14 ≤ h ∧ h < 18)
  ∧ (∀ h : Nat, time_slot h = some "18–21 (Soir)" ↔ 18 ≤ h ∧ h < 22)
  ∧ (∀ h : Nat, time_slot h = some "22–23 (Nuit tardive)" ↔ 22 ≤ h ∧ h < 24)
  ∧ time_slot 6 = some "06–09 (Matin)"
  ∧ time_slot 21 = some "18–21 (Soir)"
  ∧ time_slot 23 = some "22–23 (Nuit tardive)" := by
  have hunfold : ∀ h : Nat, time_slot h =
      if h < 6 then some "00–05 (Nuit)"
      else if h < 10 then some "06–09 (Matin)"
      else if h < 14 then some "10–13 (Midi)"
      else if h < 18 then some "14–17 (Après-midi)"
      else if h < 22 then some "18–21 (Soir)"
      else if h < 24 then some "22–23 (Nuit tardive)"
      else none := by
    intro h
    simp only [time_slot, bins, slot_labels, cutRF]
    by_cases h1 : h < 6
    · simp [h1]
    · by_cases h2 : h < 10
      · simp [h1, h2, Nat.le_of_not_lt h1]
      · by_cases h3 : h < 14
        · simp [h1, h2, h3, Nat.le_of_not_lt h2]
        · by_cases h4 : h < 18
          · simp [h1, h2, h3, h4, Nat.le_of_not_lt h3]
          · by_cases h5 : h < 22
            · simp [h1, h2, h3, h4, h5, Nat.le_of_not_lt h4]
            · by_cases h6 : h < 24
              · simp [h1, h2, h3, h4, h5, h6, Nat.le_of_not_lt h5]
              · simp [h1, h2, h3, h4, h5, h6]
  refine ⟨?_, ?_, ?_, ?_, ?_, ?_, ?_, by decide, by decide, by decide⟩
  · intro h hle
    rw [hunfold h]
    split_ifs <;> first
      | exact ⟨_, rfl, by decide⟩
      | omega
  all_goals
    intro h
    rw [hunfold h]
    split_ifs <;> first
      | exact iff_of_true rfl (by omega)
      | exact iff_of_false (by decide) (by omega)
